import Mathlib

/-!
Shallow embedding of `src/analyzers/session_analyzer.py` (the `analyze`
function and its helpers).  Timestamps are modelled as exact rationals
counting minutes, transcript text as `List Char`.  The Python `re`
patterns that `analyze` uses are translated into explicit decidable
scanners over character lists; case-insensitive matching compares
lowercased characters, and `\w` / word boundaries are modelled on the
ASCII range (all patterns in the source are ASCII).
-/

/-! ## Timeline reconstruction (lines 248-281 of the source)

`sibling_dumps` is a list of records with a parsed instant and a size in
KB; `analyze` walks consecutive entries accumulating active and gap
minutes and recording classified gaps.  Instants are modelled in minutes
(the code computes `total_seconds() / 60` for gaps and divides minute
totals by 60, seconds by 3600, to obtain hours). -/

/-- One sibling dump entry: parsed instant (minutes) and `size_kb`. -/
structure Snapshot where
  time : ℚ
  size : ℕ
deriving Repr, DecidableEq

/-- Gap classification labels (`'OVERNIGHT' | 'LONG BREAK' | 'BREAK'`). -/
inductive GapType where
  | brk
  | longBreak
  | overnight
deriving Repr, DecidableEq

/-- One entry of `gaps_found` (line 262): start/end instants, length in
minutes and its classification. -/
structure Gap where
  start : ℚ
  stop : ℚ
  minutes : ℚ
  type : GapType
deriving Repr, DecidableEq

/-- Gap classification (line 261):
`'OVERNIGHT' if gap_min > 360 else 'LONG BREAK' if gap_min > 120 else 'BREAK'`. -/
def classifyGap (gapMin : ℚ) : GapType :=
  if 360 < gapMin then .overnight else if 120 < gapMin then .longBreak else .brk

/-- Loop state of the walk over `sibling_dumps[1:]` (lines 251-255). -/
structure TLState where
  activeMin : ℚ
  gapMin : ℚ
  gaps : List Gap
  periodStart : ℚ
  lastTime : ℚ
deriving Repr, DecidableEq

/-- One iteration of the loop body (lines 257-268); `t - st.lastTime` is
the loop's `gap_min`, written out at each use. -/
def tlStep (st : TLState) (t : ℚ) : TLState :=
  if 60 < t - st.lastTime then
    { activeMin := st.activeMin + (st.lastTime - st.periodStart),
      gapMin := st.gapMin + (t - st.lastTime),
      gaps := st.gaps ++ [{ start := st.lastTime, stop := t, minutes := t - st.lastTime,
                            type := classifyGap (t - st.lastTime) }],
      periodStart := t,
      lastTime := t }
  else
    { st with lastTime := t }

/-- The timeline-derived part of the metrics dict (lines 271-281). -/
structure TimelineMetrics where
  wallClockHours : Option ℚ
  activeHours : Option ℚ
  gapHours : Option ℚ
  gaps : List Gap
  growthRatio : Option ℚ
deriving Repr, DecidableEq

/-- Timeline reconstruction (lines 248-281): with at least two sibling
snapshots the wall-clock span, active/gap sums and growth ratio are
computed; otherwise every metric is `None` and the gap list is empty. -/
def computeTimeline : List Snapshot → TimelineMetrics
  | d0 :: d1 :: rest =>
    let dlast := (d1 :: rest).getLastD d1
    let final := (d1 :: rest).foldl (fun st e => tlStep st e.time) ⟨0, 0, [], d0.time, d0.time⟩
    let activeTotal := final.activeMin + (final.lastTime - final.periodStart)
    { wallClockHours := some ((dlast.time - d0.time) / 60),
      activeHours := some (activeTotal / 60),
      gapHours := some (final.gapMin / 60),
      gaps := final.gaps,
      growthRatio := some (if 0 < d0.size then (dlast.size : ℚ) / (d0.size : ℚ) else 0) }
  | _ =>
    { wallClockHours := none, activeHours := none, gapHours := none,
      gaps := [], growthRatio := none }

/-- Consecutive (previous, current) instant pairs, seeded with a first
instant — the pairs the loop over `sibling_dumps[1:]` examines. -/
def consecutivePairs : ℚ → List ℚ → List (ℚ × ℚ)
  | _, [] => []
  | prev, t :: ts => (prev, t) :: consecutivePairs t ts

/-- The gap record one snapshot pair produces, if any (lines 259-265). -/
def mkGap (p : ℚ × ℚ) : Option Gap :=
  if 60 < p.2 - p.1 then
    some { start := p.1, stop := p.2, minutes := p.2 - p.1, type := classifyGap (p.2 - p.1) }
  else none

/-- The quantity conserved by the loop: active + gap + the still-open
active period. -/
def tlMeasure (st : TLState) : ℚ :=
  st.activeMin + st.gapMin + (st.lastTime - st.periodStart)

/-! ## Text primitives

Transcript text is a `List Char`.  The scanners below translate the
specific `re` patterns of `analyze`; lazy subpatterns become leftmost
searches, greedy character classes become `takeWhile`, and
case-insensitive matching compares against lowercased pattern letters. -/

/-- ASCII word character, modelling Python `\w` for the ASCII range (all
patterns in the source are ASCII). -/
def isWordChar (c : Char) : Bool := c.isAlpha || c.isDigit || c = '_'

/-- Is `p` (given lowercased) a prefix of `l`, comparing case-insensitively. -/
def ciIsPrefix : List Char → List Char → Bool
  | [], _ => true
  | _ :: _, [] => false
  | a :: as, b :: bs => (a == b.toLower) && ciIsPrefix as bs

/-- Exact substring test, modelling Python `sub in s`. -/
def containsSubL (p : List Char) : List Char → Bool
  | [] => p.isEmpty
  | l@(_ :: cs) => p.isPrefixOf l || containsSubL p cs

/-- Case-insensitive substring test (`re.search` of a literal pattern under
`re.IGNORECASE`); `p` is given lowercased. -/
def containsSubCI (p : List Char) : List Char → Bool
  | [] => p.isEmpty
  | l@(_ :: cs) => ciIsPrefix p l || containsSubCI p cs

/-- The suffix immediately after the first exact occurrence of `p`, if any. -/
def findAfter (p : List Char) : List Char → Option (List Char)
  | [] => if p.isEmpty then some [] else none
  | l@(_ :: cs) => if p.isPrefixOf l then some (l.drop p.length) else findAfter p cs

/-- Number of positions of `l` at which `p` occurs (occurrences may overlap). -/
def countOcc (p : List Char) : List Char → ℕ
  | [] => 0
  | l@(_ :: cs) => (if p.isPrefixOf l then 1 else 0) + countOcc p cs

/-- Split at the leftmost occurrence of `sep`: `some (pre, post)` with
`l = pre ++ sep ++ post`. -/
def splitFirst (sep : List Char) : List Char → Option (List Char × List Char)
  | [] => none
  | l@(c :: cs) =>
    if sep.isPrefixOf l then some ([], l.drop sep.length)
    else
      match splitFirst sep cs with
      | some (pre, post) => some (c :: pre, post)
      | none => none

/-- Python `str.split(sep)` for a non-empty separator.  `fuel` bounds the
number of separator occurrences; initialised with the length of the text
it cannot run out, since each occurrence consumes at least one character. -/
def splitOnFuel (sep : List Char) : ℕ → List Char → List (List Char)
  | 0, l => [l]
  | fuel + 1, l =>
    match splitFirst sep l with
    | some (pre, post) => pre :: splitOnFuel sep fuel post
    | none => [l]

def splitOnL (sep l : List Char) : List (List Char) := splitOnFuel sep l.length l

/-! ## Fixed pattern fragments from the source -/

def userHdr9 : List Char := "## USER\n[".toList

def userHdr8 : List Char := "## USER\n".toList

def userLine7 : List Char := "## USER".toList

def typeTextKey : List Char := "\"type\": \"text\"".toList

def textKey : List Char := "\"text\": \"".toList

def ideMarker : List Char := "<ide_opened_file>".toList

def isErrorFlag : List Char := "\"is_error\": true".toList

def contentKey : List Char := "\"content\": \"".toList

/-! ## Corrected user messages (lines 113-140) -/

/-- Tail of the message regex `"text": "([^"]+)"`: lazily searches
`"text": "`, then takes the greedy non-empty quote-free capture and its
closing quote; returns the capture and the remainder after the match. -/
def tailTextMatch : List Char → Option (List Char × List Char)
  | [] => none
  | l@(_ :: cs) =>
    if textKey.isPrefixOf l then
      if ((l.drop 9).takeWhile (· ≠ '"')).isEmpty then tailTextMatch cs
      else
        if ((l.drop 9).takeWhile (· ≠ '"')).length < (l.drop 9).length then
          some ((l.drop 9).takeWhile (· ≠ '"'),
                (l.drop 9).drop (((l.drop 9).takeWhile (· ≠ '"')).length + 1))
        else tailTextMatch cs
    else tailTextMatch cs

/-- Middle of the message regex: lazily searches the first `"type": "text"`
after which the tail matches. -/
def innerMatch : List Char → Option (List Char × List Char)
  | [] => none
  | l@(_ :: cs) =>
    if typeTextKey.isPrefixOf l then
      match tailTextMatch (l.drop 14) with
      | some r => some r
      | none => innerMatch cs
    else innerMatch cs

/-- `re.findall(r'## USER\n\[.*?"type": "text".*?"text": "([^"]+)"', content,
re.DOTALL)` (lines 120-121): scan for `## USER\n[`, lazily complete the
match, record the capture, continue after the match end (matches do not
overlap).  `fuel` initialised with the text length cannot run out: every
step advances by at least one character. -/
def findMsgsFuel : ℕ → List Char → List (List Char)
  | 0, _ => []
  | _ + 1, [] => []
  | fuel + 1, l@(_ :: cs) =>
    if userHdr9.isPrefixOf l then
      match innerMatch (l.drop 9) with
      | some (cap, rest) => cap :: findMsgsFuel fuel rest
      | none => findMsgsFuel fuel cs
    else findMsgsFuel fuel cs

/-- `user_text_messages` (line 120). -/
def userTextMessages (content : List Char) : List (List Char) :=
  findMsgsFuel content.length content

/-- `real_msgs` (line 122): messages whose captured text does not contain
the IDE file-open marker. -/
def realUserMsgsList (content : List Char) : List (List Char) :=
  (userTextMessages content).filter (fun m => !containsSubL ideMarker m)

/-- `m['real_user_msgs']` (line 123). -/
def realUserMsgs (content : List Char) : ℕ := (realUserMsgsList content).length

/-- Does a line end here (`$` in MULTILINE mode): end of text or a newline. -/
def lineEnds : List Char → Bool
  | [] => true
  | c :: _ => c == '\n'

/-- `len(re.findall(r'^## USER$', content, re.MULTILINE))` (line 113):
count the positions that start a line, read `## USER`, and are followed by
a newline or the end of the text.  `prev` is the preceding character; the
start of the text is a line start, seeded with `'\n'`. -/
def rawCountAux (prev : Char) : List Char → ℕ
  | [] => 0
  | l@(c :: cs) =>
    (if prev = '\n' ∧ userLine7.isPrefixOf l ∧ lineEnds (l.drop 7) then 1 else 0) +
      rawCountAux c cs

/-- `m['raw_user_sections']` (line 113). -/
def rawUserSections (content : List Char) : ℕ := rawCountAux '\n' content

/-- Every occurrence of the turn boundary `## USER\n` lies at a line start
(true of well-formed dumps; the boundary can also occur mid-line, where the
message regex still fires but the raw section count does not). -/
def hdrAtLineStarts (prev : Char) : List Char → Bool
  | [] => true
  | l@(c :: cs) => (!(userHdr8.isPrefixOf l) || (prev == '\n')) && hdrAtLineStarts c cs

/-! ## Message categorisation (lines 126-139) -/

inductive MsgCat where
  | guidance
  | approval
  | corrections
  | questions
  | other
deriving Repr, DecidableEq

/-- An ASCII apostrophe, kept out of string literals. -/
def apos : Char := Char.ofNat 39

def guidanceWords : List (List Char) :=
  ["read".toList, "check".toList, "try".toList, "run".toList, "create".toList,
   "update".toList, "fix".toList, "implement".toList]

def approvalWords : List (List Char) :=
  ["good".toList, "looks good".toList, "perfect".toList, "yes".toList,
   "correct".toList, "right".toList]

def dontW : List Char := ['d', 'o', 'n', apos, 't']

def shouldntW : List Char := ['s', 'h', 'o', 'u', 'l', 'd', 'n', apos, 't']

def negationWords : List (List Char) :=
  ["no".toList, "wrong".toList, "incorrect".toList, "stop".toList, dontW, shouldntW]

/-- Category of one retained message (lines 127-138): first matching rule
wins, scanning the lowercased body for the fixed keyword sets, then for a
question mark. -/
def categorizeMsg (msg : List Char) : MsgCat :=
  if guidanceWords.any (fun w => containsSubL w (msg.map Char.toLower)) then .guidance
  else if approvalWords.any (fun w => containsSubL w (msg.map Char.toLower)) then .approval
  else if negationWords.any (fun w => containsSubL w (msg.map Char.toLower)) then .corrections
  else if msg.contains '?' then .questions
  else .other

/-- `m['msg_categories']` (line 139): per-category counts over the retained
messages. -/
def msgCategories (content : List Char) (c : MsgCat) : ℕ :=
  ((realUserMsgsList content).filter (fun m => categorizeMsg m = c)).length

/-- `user_turns[1:]` (line 143): the turn bodies after each boundary. -/
def turnsOf (content : List Char) : List (List Char) :=
  (splitOnL userHdr8 content).drop 1

/-! ## Concrete transcripts used as counterexamples and witnesses -/

/-- A transcript whose only `## USER` boundary sits mid-line: the message
regex fires but `^## USER$` never matches. -/
def c4Cex : List Char := "x## USER\n[\"type\": \"text\", \"text\": \"hi\"]".toList

/-- A well-formed one-turn transcript (boundary at a line start). -/
def c4Wit : List Char := "## USER\n[\"type\": \"text\", \"text\": \"hi\"]".toList

/-- A turn carrying the IDE marker in its body but not in its captured
text. -/
def c6Cex : List Char :=
  "## USER\n[\"type\": \"text\", \"text\": \"hello\"] <ide_opened_file>".toList

/-- A marker-free one-turn transcript. -/
def c6Wit : List Char := "## USER\n[\"type\": \"text\", \"text\": \"hi\"]".toList

/-! ## Tool errors vs user corrections (lines 142-206)

The `TOOL_ERROR_PATTERNS` list (lines 45-57), in order.  Nine entries are
literal strings matched case-insensitively; `connection.*failed` and
`ERROR:.*\n` carry regex operators and get dedicated scanners.  Pattern
letters are stored lowercased for the case-insensitive comparison. -/

def psqlPat : List Char := "psql: error:".toList

def enoentPat : List Char := "enoent".toList

def cannotFindPat : List Char := "cannot find".toList

def permDeniedPat : List Char := "permission denied".toList

def connWord : List Char := "connection".toList

def failedWord : List Char := "failed".toList

def errColon : List Char := "error:".toList

def synErrPat : List Char := "syntaxerror".toList

def typeErrPat : List Char := "typeerror".toList

def migrationPat : List Char := "migration failed".toList

def cmdNotFoundPat : List Char := "command not found".toList

def noSuchFilePat : List Char := "no such file".toList

/-- `re.search(r'connection.*failed', turn, re.IGNORECASE)`: `connection`
followed by `failed` later on the same line (`.` does not cross newlines). -/
def connMatch : List Char → Bool
  | [] => false
  | l@(_ :: cs) =>
    (ciIsPrefix connWord l &&
      containsSubCI failedWord ((l.drop 10).takeWhile (· ≠ '\n'))) || connMatch cs

/-- `re.search(r'ERROR:.*\n', turn, re.IGNORECASE)`: `error:` with a
newline somewhere after it (the `.*` absorbs the rest of that line). -/
def errorNlMatch : List Char → Bool
  | [] => false
  | l@(_ :: cs) => (ciIsPrefix errColon l && (l.drop 6).contains '\n') || errorNlMatch cs

/-- `tool_error_match` (line 154): some signature from
`TOOL_ERROR_PATTERNS` matches the turn body. -/
def toolErrorMatch (turn : List Char) : Bool :=
  containsSubCI psqlPat turn || containsSubCI enoentPat turn ||
  containsSubCI cannotFindPat turn || containsSubCI permDeniedPat turn ||
  connMatch turn || errorNlMatch turn || containsSubCI synErrPat turn ||
  containsSubCI typeErrPat turn || containsSubCI migrationPat turn ||
  containsSubCI cmdNotFoundPat turn || containsSubCI noSuchFilePat turn

/-- `re.search(r'"text": "([^"]*)"', turn)` (line 150): leftmost
`"text": "` whose (possibly empty) quote-free run has a closing quote. -/
def extractUserText : List Char → Option (List Char)
  | [] => none
  | l@(_ :: cs) =>
    if textKey.isPrefixOf l then
      if ((l.drop 9).takeWhile (· ≠ '"')).length < (l.drop 9).length then
        some ((l.drop 9).takeWhile (· ≠ '"'))
      else extractUserText cs
    else extractUserText cs

/-- `user_text` (line 151), defaulting to the empty string. -/
def userTextOf (turn : List Char) : List Char := (extractUserText turn).getD []

/-- Python `.replace('\\n', ' ')` (line 161): each two-character
backslash-n sequence becomes one space, left to right. -/
def replaceBsN : List Char → List Char
  | [] => []
  | '\\' :: 'n' :: rest => ' ' :: replaceBsN rest
  | c :: rest => c :: replaceBsN rest

/-- Snippet of a flagged error (lines 158-161):
`re.search(r'"is_error": true.*?"content": "([^"]{0,200})', turn, re.DOTALL)`
— the up-to-200-character quote-free run after the first `"content": "`
following the flag — then backslash-n collapsed and truncated to 100;
empty when the flag has no content field after it. -/
def flagSnippet (turn : List Char) : List Char :=
  match findAfter isErrorFlag turn with
  | none => []
  | some rest =>
    match findAfter contentKey rest with
    | none => []
    | some r2 => (replaceBsN ((r2.takeWhile (· ≠ '"')).take 200)).take 100

/-- `re.search(f'({pat}[^\n]{0,100})', turn, re.IGNORECASE)` for a literal
signature `p` (given lowercased): the leftmost occurrence in original case
plus up to 100 following non-newline characters. -/
def searchLit (p : List Char) : List Char → Option (List Char)
  | [] => none
  | l@(_ :: cs) =>
    if ciIsPrefix p l then
      some (l.take p.length ++ ((l.drop p.length).takeWhile (· ≠ '\n')).take 100)
    else searchLit p cs

/-- End position (exclusive) of the last case-insensitive occurrence of
`p`, if any. -/
def lastOccEnd (p : List Char) : List Char → Option ℕ
  | [] => none
  | l@(_ :: cs) =>
    match lastOccEnd p cs with
    | some e => some (e + 1)
    | none => if ciIsPrefix p l then some p.length else none

/-- `re.search(r'(connection.*failed[^\n]{0,100})', turn, re.IGNORECASE)`:
at the leftmost viable start the greedy `.*` runs to the last `failed` on
that line, then up to 100 more characters of the line follow. -/
def connSearch : List Char → Option (List Char)
  | [] => none
  | l@(_ :: cs) =>
    if ciIsPrefix connWord l then
      match lastOccEnd failedWord ((l.drop 10).takeWhile (· ≠ '\n')) with
      | some e =>
        some (l.take 10 ++ ((l.drop 10).takeWhile (· ≠ '\n')).take e ++
          ((((l.drop 10).takeWhile (· ≠ '\n')).drop e).take 100))
      | none => connSearch cs
    else connSearch cs

/-- `re.search(r'(ERROR:.*\n[^\n]{0,100})', turn, re.IGNORECASE)`: greedy
to the end of the line, the newline itself, then up to 100 characters of
the following line. -/
def errorNlSearch : List Char → Option (List Char)
  | [] => none
  | l@(_ :: cs) =>
    if ciIsPrefix errColon l then
      if ((l.drop 6).takeWhile (· ≠ '\n')).length < (l.drop 6).length then
        some (l.take 6 ++ (l.drop 6).takeWhile (· ≠ '\n') ++ ['\n'] ++
          ((((l.drop 6).drop (((l.drop 6).takeWhile (· ≠ '\n')).length + 1)).takeWhile
            (· ≠ '\n')).take 100))
      else errorNlSearch cs
    else errorNlSearch cs

/-- The `elif tool_error_match` snippet loop (lines 162-167): the first
pattern in `TOOL_ERROR_PATTERNS` order whose search succeeds provides the
snippet (each `f'({pat}[^\n]{0,100})'` succeeds exactly when `pat` alone
matches); empty when none does. -/
def elifSnippet (turn : List Char) : List Char :=
  (searchLit psqlPat turn <|> searchLit enoentPat turn <|>
   searchLit cannotFindPat turn <|> searchLit permDeniedPat turn <|>
   connSearch turn <|> errorNlSearch turn <|> searchLit synErrPat turn <|>
   searchLit typeErrPat turn <|> searchLit migrationPat turn <|>
   searchLit cmdNotFoundPat turn <|> searchLit noSuchFilePat turn).getD []

/-! ## Correction and clarification patterns (lines 172-184) -/

/-- Word boundary before a position: preceding character absent or
non-word. -/
def boundaryBefore : Option Char → Bool
  | none => true
  | some c => !isWordChar c

/-- Word boundary at the start of `l`: first character absent or non-word. -/
def boundaryAfter : List Char → Bool
  | [] => true
  | c :: _ => !isWordChar c

/-- One alternative of a `\b(w1|w2|...)\b` group matches here. -/
def wordAltAt (alts : List (List Char)) (prev : Option Char) (l : List Char) : Bool :=
  alts.any fun a => ciIsPrefix a l && boundaryBefore prev && boundaryAfter (l.drop a.length)

/-- Scan for `\b(w1|...)\b` under `re.IGNORECASE`, carrying the previous
character for the boundary test. -/
def matchWordAltAux (alts : List (List Char)) : Option Char → List Char → Bool
  | _, [] => false
  | prev, l@(c :: cs) => wordAltAt alts prev l || matchWordAltAux alts (some c) cs

def matchWordAlt (alts : List (List Char)) (text : List Char) : Bool :=
  matchWordAltAux alts none text

/-- One position match for `\b(g1)\b.*\b(g2)\b` (no DOTALL): a first-group
alternative with boundaries here, then a second-group alternative with
boundaries within the rest of the same line; the character preceding the
second group at offset zero is the first group's last character. -/
def pairAltAt (alts1 alts2 : List (List Char)) (prev : Option Char) (l : List Char) : Bool :=
  alts1.any fun a =>
    ciIsPrefix a l && boundaryBefore prev && boundaryAfter (l.drop a.length) &&
      matchWordAltAux alts2 (l.get? (a.length - 1)) ((l.drop a.length).takeWhile (· ≠ '\n'))

def matchPairAltAux (alts1 alts2 : List (List Char)) : Option Char → List Char → Bool
  | _, [] => false
  | prev, l@(c :: cs) =>
      pairAltAt alts1 alts2 prev l || matchPairAltAux alts1 alts2 (some c) cs

def matchPairAlt (alts1 alts2 : List (List Char)) (text : List Char) : Bool :=
  matchPairAltAux alts1 alts2 none text

def thatsNotRightW : List Char :=
  ['t', 'h', 'a', 't', apos, 's', ' ', 'n', 'o', 't', ' ', 'r', 'i', 'g', 'h', 't']

/-- `\b(no|nope|wrong|incorrect|that's not right|stop|revert|undo)\b`
(line 173). -/
def corrAlts1 : List (List Char) :=
  ["no".toList, "nope".toList, "wrong".toList, "incorrect".toList,
   thatsNotRightW, "stop".toList, "revert".toList, "undo".toList]

/-- First group of line 174: `\b(don't|do not|shouldn't|should not)\b`. -/
def negModalAlts : List (List Char) :=
  [dontW, "do not".toList, shouldntW, "should not".toList]

/-- Second group of line 174: `\b(do|use|try)\b`. -/
def doUseTryAlts : List (List Char) := ["do".toList, "use".toList, "try".toList]

/-- `\b(actually|instead|what I meant|should be|to clarify)\b` (line 180). -/
def clarAlts1 : List (List Char) :=
  ["actually".toList, "instead".toList, "what i meant".toList,
   "should be".toList, "to clarify".toList]

/-- First group of line 181: `\b(try|use|do)\b`. -/
def tryUseDoAlts : List (List Char) := ["try".toList, "use".toList, "do".toList]

/-- Second group of line 181: `\binstead\b`. -/
def insteadAlts : List (List Char) := ["instead".toList]

/-- `any(re.search(p, user_text, re.IGNORECASE) for p in correction_pats)`
(line 176). -/
def matchCorrection (text : List Char) : Bool :=
  matchWordAlt corrAlts1 text || matchPairAlt negModalAlts doUseTryAlts text

/-- The clarification-pattern test (line 183). -/
def matchClarification (text : List Char) : Bool :=
  matchWordAlt clarAlts1 text || matchPairAlt tryUseDoAlts insteadAlts text

/-- Result of the per-turn loop body (lines 149-184). -/
structure TurnResult where
  toolError : Option (List Char)
  correction : Bool
  clarification : Bool
deriving Repr, DecidableEq

/-- `has_tool_error` (line 153). -/
def hasToolErrorFlag (turn : List Char) : Bool := containsSubL isErrorFlag turn

/-- The per-turn loop body (lines 149-184): a flagged or signature-matched
turn is one tool error with a snippet and skips (`continue`) the
correction/clarification tests; any other turn is tested against both
pattern families over its extracted `user_text`. -/
def classifyTurn (turn : List Char) : TurnResult :=
  if hasToolErrorFlag turn || toolErrorMatch turn then
    { toolError := some (if hasToolErrorFlag turn then flagSnippet turn else elifSnippet turn),
      correction := false,
      clarification := false }
  else
    { toolError := none,
      correction := matchCorrection (userTextOf turn),
      clarification := matchClarification (userTextOf turn) }

/-- `tool_errors` accumulation over the 1-indexed turns. -/
def toolErrGo : ℕ → List (List Char) → List (ℕ × List Char)
  | _, [] => []
  | i, t :: ts =>
    match (classifyTurn t).toolError with
    | some s => (i, s) :: toolErrGo (i + 1) ts
    | none => toolErrGo (i + 1) ts

/-- `user_corrections` accumulation (line 177). -/
def corrGo : ℕ → List (List Char) → List (ℕ × List Char)
  | _, [] => []
  | i, t :: ts =>
    if (classifyTurn t).correction then
      (i, (userTextOf t).take 150) :: corrGo (i + 1) ts
    else corrGo (i + 1) ts

/-- `user_clarifications` accumulation (line 184). -/
def clarGo : ℕ → List (List Char) → List (ℕ × List Char)
  | _, [] => []
  | i, t :: ts =>
    if (classifyTurn t).clarification then
      (i, (userTextOf t).take 150) :: clarGo (i + 1) ts
    else clarGo (i + 1) ts

/-- `m['tool_error_details']` (line 187). -/
def toolErrorDetails (content : List Char) : List (ℕ × List Char) :=
  toolErrGo 1 (turnsOf content)

/-- `m['user_correction_details']` (line 189). -/
def correctionDetails (content : List Char) : List (ℕ × List Char) :=
  corrGo 1 (turnsOf content)

/-- The clarification records feeding `m['user_clarifications']`. -/
def clarificationDetails (content : List Char) : List (ℕ × List Char) :=
  clarGo 1 (turnsOf content)

/-- `m['tool_errors']` (line 186). -/
def toolErrorsCount (content : List Char) : ℕ := (toolErrorDetails content).length

/-- Sub-categories of tool errors (lines 193-205). -/
inductive ErrCat where
  | dbConnection
  | sqlMigration
  | fileNotFound
  | permission
  | otherTechnical
deriving Repr, DecidableEq

/-- Sub-categorisation of one recorded snippet (lines 194-205): a priority
scan of the lowercased snippet text. -/
def categorizeError (snippet : List Char) : ErrCat :=
  if containsSubL "psql".toList (snippet.map Char.toLower) ||
     containsSubL "connection".toList (snippet.map Char.toLower) then .dbConnection
  else if containsSubL "error:".toList (snippet.map Char.toLower) ||
     containsSubL "failed".toList (snippet.map Char.toLower) then .sqlMigration
  else if containsSubL "enoent".toList (snippet.map Char.toLower) ||
     containsSubL "cannot find".toList (snippet.map Char.toLower) then .fileNotFound
  else if containsSubL "permission".toList (snippet.map Char.toLower) then .permission
  else .otherTechnical

/-- `m['error_categories']` (line 206): counts per sub-category over the
recorded tool-error snippets. -/
def errorCategories (content : List Char) (c : ErrCat) : ℕ :=
  ((toolErrorDetails content).filter (fun r => categorizeError r.2 = c)).length

/-- A turn whose extracted text matches both the correction and the
clarification families, free of tool-error signals. -/
def c2Wit : List Char := "## USER\n\"text\": \"nope, use the other approach instead\"".toList

/-- The single turn body of `c2Wit`. -/
def c2WitTurn : List Char := "\"text\": \"nope, use the other approach instead\"".toList

/-- A flagged turn that also carries `psql: error:` loose in its body, with
no content field after the flag: the snippet degrades to empty. -/
def c7Cex : List Char := "## USER\n\"is_error\": true psql: error: x".toList

/-- A flagged turn whose content field itself carries the psql text. -/
def c7Wit : List Char :=
  "## USER\n\"is_error\": true, \"content\": \"psql: error: connection refused\"".toList

/-- The single turn body of `c7Wit`. -/
def c7WitTurn : List Char :=
  "\"is_error\": true, \"content\": \"psql: error: connection refused\"".toList

lemma tlStep_lastTime (st : TLState) (t : ℚ) : (tlStep st t).lastTime = t := by
  unfold tlStep
  split <;> rfl

lemma tlStep_measure (st : TLState) (t : ℚ) :
    tlMeasure (tlStep st t) = tlMeasure st + (t - st.lastTime) := by
  unfold tlStep tlMeasure
  split <;> simp <;> ring

lemma tlStep_gaps (st : TLState) (t : ℚ) :
    (tlStep st t).gaps = st.gaps ++ (mkGap (st.lastTime, t)).toList := by
  simp only [tlStep, mkGap]
  split_ifs with h <;> simp

lemma foldl_tlStep_measure (ts : List Snapshot) (st : TLState) :
    tlMeasure (ts.foldl (fun s e => tlStep s e.time) st) =
      tlMeasure st + ((ts.foldl (fun s e => tlStep s e.time) st).lastTime - st.lastTime) := by
  induction ts generalizing st with
  | nil => simp
  | cons d ts ih =>
    simp only [List.foldl_cons]
    rw [ih (tlStep st d.time), tlStep_measure, tlStep_lastTime]
    ring

lemma foldl_tlStep_lastTime (ts : List Snapshot) (st : TLState) :
    (ts.foldl (fun s e => tlStep s e.time) st).lastTime =
      (ts.map Snapshot.time).getLastD st.lastTime := by
  induction ts generalizing st with
  | nil => rfl
  | cons d ts ih =>
    simp only [List.foldl_cons, List.map_cons, List.getLastD_cons]
    rw [ih (tlStep st d.time), tlStep_lastTime]

lemma foldl_tlStep_gaps (ts : List Snapshot) (st : TLState) :
    (ts.foldl (fun s e => tlStep s e.time) st).gaps =
      st.gaps ++ (consecutivePairs st.lastTime (ts.map Snapshot.time)).filterMap mkGap := by
  induction ts generalizing st with
  | nil => simp [consecutivePairs]
  | cons d ts ih =>
    simp only [List.foldl_cons, List.map_cons, consecutivePairs, List.filterMap_cons]
    rw [ih (tlStep st d.time), tlStep_gaps, tlStep_lastTime]
    cases h : mkGap (st.lastTime, d.time) <;> simp [h]

lemma getLastD_map_time (l : List Snapshot) (d : Snapshot) :
    (l.map Snapshot.time).getLastD d.time = (l.getLastD d).time := by
  induction l generalizing d with
  | nil => rfl
  | cons a l ih => simp only [List.map_cons, List.getLastD_cons, ih a]

/-- C1: for every timeline of at least two snapshots, the reconstruction
reports active, gap and wall-clock hours as `some` values satisfying
`active_hours + gap_hours = wall_clock_hours` (exactly, in the rational
model of the arithmetic). -/
theorem c1_active_plus_gap_eq_wall (d0 d1 : Snapshot) (rest : List Snapshot) :
    ∃ a g w : ℚ,
      (computeTimeline (d0 :: d1 :: rest)).activeHours = some a ∧
      (computeTimeline (d0 :: d1 :: rest)).gapHours = some g ∧
      (computeTimeline (d0 :: d1 :: rest)).wallClockHours = some w ∧
      a + g = w := by
  refine ⟨_, _, _, rfl, rfl, rfl, ?_⟩
  rw [div_add_div_same]
  congr 1
  have hm := foldl_tlStep_measure (d1 :: rest) ⟨0, 0, [], d0.time, d0.time⟩
  have hl := foldl_tlStep_lastTime (d1 :: rest) ⟨0, 0, [], d0.time, d0.time⟩
  have hg : ((d1 :: rest).map Snapshot.time).getLastD d0.time =
      ((d1 :: rest).getLastD d1).time := by
    simp only [List.map_cons, List.getLastD_cons]
    exact getLastD_map_time rest d1
  unfold tlMeasure at hm
  simp only at hm hl
  rw [hl, hg] at hm
  simp only [List.getLastD_cons]
  set f := (d1 :: rest).foldl (fun st e => tlStep st e.time) ⟨0, 0, [], d0.time, d0.time⟩
  rw [hl, hg]
  simp only [List.getLastD_cons] at hm ⊢
  linarith [hm]

/-- C3: with fewer than two sibling snapshots, every timeline metric is
reported as `None` (unavailable), not zero, and the gap list is empty. -/
theorem c3_short_timeline_unavailable (ds : List Snapshot) (h : ds.length < 2) :
    (computeTimeline ds).wallClockHours = none ∧
    (computeTimeline ds).activeHours = none ∧
    (computeTimeline ds).gapHours = none ∧
    (computeTimeline ds).growthRatio = none ∧
    (computeTimeline ds).gaps = [] := by
  match ds with
  | [] => exact ⟨rfl, rfl, rfl, rfl, rfl⟩
  | [d] => exact ⟨rfl, rfl, rfl, rfl, rfl⟩
  | d0 :: d1 :: rest => exact absurd h (by simp)

theorem c3_witness :
    ([ ] : List Snapshot).length < 2 ∧
      (computeTimeline []).wallClockHours = none ∧
      (computeTimeline []).gaps = [] := by
  refine ⟨by decide, ?_, ?_⟩
  · exact (c3_short_timeline_unavailable [] (by decide)).1
  · exact (c3_short_timeline_unavailable [] (by decide)).2.2.2.2

/-- C8: the recorded gaps are exactly the consecutive snapshot pairs more
than 60 minutes apart, classified OVERNIGHT above 360 minutes, LONG BREAK
above 120, BREAK otherwise; a qualifying pair closes the active period at
the earlier snapshot and restarts it at the later one, while a pair at
most 60 minutes apart records nothing and leaves the open active period
and its start untouched. -/
theorem c8_gap_reconstruction (d0 d1 : Snapshot) (rest : List Snapshot) :
    ((computeTimeline (d0 :: d1 :: rest)).gaps =
      (consecutivePairs d0.time ((d1 :: rest).map Snapshot.time)).filterMap
        (fun p => if 60 < p.2 - p.1 then
            some { start := p.1, stop := p.2, minutes := p.2 - p.1,
                   type := if 360 < p.2 - p.1 then GapType.overnight
                           else if 120 < p.2 - p.1 then GapType.longBreak
                           else GapType.brk }
          else none)) ∧
    (∀ st : TLState, ∀ t : ℚ, 60 < t - st.lastTime →
        (tlStep st t).gaps = st.gaps ++
          [{ start := st.lastTime, stop := t, minutes := t - st.lastTime,
             type := classifyGap (t - st.lastTime) }] ∧
        (tlStep st t).activeMin = st.activeMin + (st.lastTime - st.periodStart) ∧
        (tlStep st t).periodStart = t ∧ (tlStep st t).lastTime = t) ∧
    (∀ st : TLState, ∀ t : ℚ, t - st.lastTime ≤ 60 →
        (tlStep st t).gaps = st.gaps ∧ (tlStep st t).activeMin = st.activeMin ∧
        (tlStep st t).periodStart = st.periodStart ∧ (tlStep st t).lastTime = t) := by
  refine ⟨?_, ?_, ?_⟩
  · have h := foldl_tlStep_gaps (d1 :: rest) ⟨0, 0, [], d0.time, d0.time⟩
    have hfun : mkGap = (fun p : ℚ × ℚ => if 60 < p.2 - p.1 then
        some { start := p.1, stop := p.2, minutes := p.2 - p.1,
               type := if 360 < p.2 - p.1 then GapType.overnight
                       else if 120 < p.2 - p.1 then GapType.longBreak
                       else GapType.brk }
      else none) := by
      funext p
      unfold mkGap classifyGap
      rfl
    show (computeTimeline (d0 :: d1 :: rest)).gaps = _
    rw [← hfun]
    unfold computeTimeline
    simpa using h
  · intro st t ht
    unfold tlStep
    rw [if_pos ht]
    exact ⟨rfl, rfl, rfl, rfl⟩
  · intro st t ht
    unfold tlStep
    rw [if_neg (by simpa using not_lt.mpr ht)]
    exact ⟨rfl, rfl, rfl, rfl⟩

theorem c8_witness :
    (computeTimeline [⟨540, 100⟩, ⟨570, 110⟩, ⟨840, 120⟩, ⟨850, 130⟩]).gaps =
      [{ start := 570, stop := 840, minutes := 270, type := GapType.longBreak }] ∧
    (tlStep ⟨0, 0, [], 540, 570⟩ 840).periodStart = 840 ∧
    (tlStep ⟨30, 270, [], 840, 840⟩ 850).gaps = [] := by
  have h := c8_gap_reconstruction ⟨540, 100⟩ ⟨570, 110⟩ [⟨840, 120⟩, ⟨850, 130⟩]
  refine ⟨h.1.trans ?_, (h.2.1 ⟨0, 0, [], 540, 570⟩ 840 (by norm_num)).2.2.1,
    (h.2.2 ⟨30, 270, [], 840, 840⟩ 850 (by norm_num)).1⟩
  norm_num [consecutivePairs, List.filterMap_cons]

/-- C9: for any timeline of at least two snapshots the reported growth
ratio is `some` of the final size divided by the first size (rational
division, which is 0 on a zero first size), and it is reported as 0
whenever the first snapshot's size is zero. -/
theorem c9_growth_ratio (d0 d1 : Snapshot) (rest : List Snapshot) :
    (computeTimeline (d0 :: d1 :: rest)).growthRatio =
      some ((((d1 :: rest).getLastD d1).size : ℚ) / (d0.size : ℚ)) ∧
    (d0.size = 0 → (computeTimeline (d0 :: d1 :: rest)).growthRatio = some 0) := by
  constructor
  · show some _ = some _
    congr 1
    by_cases h : 0 < d0.size
    · rw [if_pos h]
    · rw [if_neg h]
      have h0 : d0.size = 0 := by omega
      rw [h0]
      simp
  · intro h0
    show some _ = some 0
    congr 1
    rw [if_neg (by omega)]

theorem c9_witness :
    ((⟨0, 0⟩ : Snapshot).size = 0) ∧
      (computeTimeline [⟨0, 0⟩, ⟨10, 25⟩]).growthRatio = some 0 := by
  exact ⟨rfl, (c9_growth_ratio ⟨0, 0⟩ ⟨10, 25⟩ []).2 rfl⟩

/-! ## Claims C4, C5, C6 -/

lemma countOcc_cons_le (p : List Char) (c : Char) (cs : List Char) :
    countOcc p cs ≤ countOcc p (c :: cs) := by
  simp only [countOcc]
  split <;> omega

lemma countOcc_drop_le (p : List Char) (n : ℕ) (l : List Char) :
    countOcc p (l.drop n) ≤ countOcc p l := by
  induction n generalizing l with
  | zero => simp
  | succ n ih =>
    cases l with
    | nil => simp
    | cons c cs =>
      simp only [List.drop_succ_cons]
      exact le_trans (ih cs) (countOcc_cons_le p c cs)

lemma tailTextMatch_drop (l cap rest : List Char)
    (h : tailTextMatch l = some (cap, rest)) : ∃ n, rest = l.drop n := by
  induction l with
  | nil => simp [tailTextMatch] at h
  | cons c cs ih =>
    rw [tailTextMatch] at h
    split_ifs at h with h1 h2 h3
    · obtain ⟨n, hn⟩ := ih h
      exact ⟨n + 1, by simpa using hn⟩
    · rw [Option.some_inj] at h
      refine ⟨9 + (((((c :: cs).drop 9).takeWhile (· ≠ '"')).length + 1)), ?_⟩
      rw [← List.drop_drop]
      exact (congrArg Prod.snd h).symm
    · obtain ⟨n, hn⟩ := ih h
      exact ⟨n + 1, by simpa using hn⟩
    · obtain ⟨n, hn⟩ := ih h
      exact ⟨n + 1, by simpa using hn⟩

lemma innerMatch_drop (l cap rest : List Char)
    (h : innerMatch l = some (cap, rest)) : ∃ n, rest = l.drop n := by
  induction l with
  | nil => simp [innerMatch] at h
  | cons c cs ih =>
    rw [innerMatch] at h
    split_ifs at h with h1
    · cases htm : tailTextMatch ((c :: cs).drop 14) with
      | none =>
        rw [htm] at h
        obtain ⟨n, hn⟩ := ih h
        exact ⟨n + 1, by simpa using hn⟩
      | some pr =>
        rw [htm] at h
        rw [Option.some_inj] at h
        rw [h] at htm
        obtain ⟨n, hn⟩ := tailTextMatch_drop _ _ _ htm
        exact ⟨14 + n, by rw [hn, List.drop_drop]⟩
    · obtain ⟨n, hn⟩ := ih h
      exact ⟨n + 1, by simpa using hn⟩

lemma findMsgs_length_le (fuel : ℕ) :
    ∀ l : List Char, (findMsgsFuel fuel l).length ≤ countOcc userHdr9 l := by
  induction fuel with
  | zero => intro l; simp [findMsgsFuel]
  | succ fuel ih =>
    intro l
    cases l with
    | nil => simp [findMsgsFuel]
    | cons c cs =>
      rw [findMsgsFuel]
      split_ifs with hp
      · cases him : innerMatch ((c :: cs).drop 9) with
        | none =>
          simp only [him]
          exact le_trans (ih cs) (le_trans (countOcc_cons_le userHdr9 c cs)
            (le_of_eq rfl))
        | some pr =>
          obtain ⟨cap, rest⟩ := pr
          simp only [him, List.length_cons]
          obtain ⟨n, hn⟩ := innerMatch_drop _ _ _ him
          have h1 : (findMsgsFuel fuel rest).length ≤ countOcc userHdr9 rest := ih rest
          have h2 : countOcc userHdr9 rest ≤ countOcc userHdr9 cs := by
            rw [hn, List.drop_drop]
            have hd : (c :: cs).drop (9 + n) = cs.drop (8 + n) := by
              rw [show 9 + n = (8 + n) + 1 by omega, List.drop_succ_cons]
            rw [hd]
            exact countOcc_drop_le userHdr9 (8 + n) cs
          have h3 : countOcc userHdr9 (c :: cs) = 1 + countOcc userHdr9 cs := by
            simp only [countOcc, if_pos hp]
          omega
      · exact le_trans (ih cs) (countOcc_cons_le userHdr9 c cs)

lemma countOcc_hdr9_le_hdr8 (l : List Char) :
    countOcc userHdr9 l ≤ countOcc userHdr8 l := by
  induction l with
  | nil => simp [countOcc]
  | cons c cs ih =>
    have himp : userHdr9.isPrefixOf (c :: cs) = true → userHdr8.isPrefixOf (c :: cs) = true := by
      intro h
      rw [List.isPrefixOf_iff_prefix] at h ⊢
      exact (List.isPrefixOf_iff_prefix.mp (by decide : userHdr8.isPrefixOf userHdr9 = true)).trans h
    simp only [countOcc]
    by_cases h9 : userHdr9.isPrefixOf (c :: cs)
    · rw [if_pos h9, if_pos (himp h9)]
      omega
    · rw [if_neg h9]
      split_ifs <;> omega

lemma countOcc_hdr8_le_raw (l : List Char) :
    ∀ prev : Char, hdrAtLineStarts prev l = true →
      countOcc userHdr8 l ≤ rawCountAux prev l := by
  induction l with
  | nil => intro prev _; simp [countOcc, rawCountAux]
  | cons c cs ih =>
    intro prev h
    rw [hdrAtLineStarts, Bool.and_eq_true] at h
    obtain ⟨h1, h2⟩ := h
    have hrec := ih c h2
    simp only [countOcc, rawCountAux]
    by_cases hp : userHdr8.isPrefixOf (c :: cs)
    · have hprev : prev = '\n' := by
        rw [hp] at h1
        simpa using h1
      have hline : userLine7.isPrefixOf (c :: cs) = true := by
        rw [List.isPrefixOf_iff_prefix] at hp ⊢
        exact (List.isPrefixOf_iff_prefix.mp
          (by decide : userLine7.isPrefixOf userHdr8 = true)).trans hp
      have hend : lineEnds ((c :: cs).drop 7) = true := by
        rw [List.isPrefixOf_iff_prefix] at hp
        obtain ⟨t, ht⟩ := hp
        rw [← ht]
        rfl
      rw [if_pos hp, if_pos ⟨hprev, hline, hend⟩]
      omega
    · rw [if_neg hp]
      split_ifs <;> omega

theorem c4_counterexample : ¬ (realUserMsgs c4Cex ≤ rawUserSections c4Cex) := by decide

/-- C4 (amended): provided every occurrence of the turn boundary
`## USER\n` in the transcript sits at the start of a line — true of the
dumps the tool processes, but violable by a transcript that embeds the
boundary mid-line, where the message regex still fires while `^## USER$`
does not — the corrected count never exceeds the raw section count. -/
theorem c4_classifier_narrows (content : List Char)
    (h : hdrAtLineStarts '\n' content = true) :
    realUserMsgs content ≤ rawUserSections content := by
  unfold realUserMsgs realUserMsgsList userTextMessages rawUserSections
  refine le_trans (List.length_filter_le _ _) (le_trans (findMsgs_length_le _ _)
    (le_trans (countOcc_hdr9_le_hdr8 content) (countOcc_hdr8_le_raw content '\n' h)))

theorem c4_witness :
    hdrAtLineStarts '\n' c4Wit = true ∧ realUserMsgs c4Wit ≤ rawUserSections c4Wit :=
  ⟨by decide, c4_classifier_narrows c4Wit (by decide)⟩

lemma categorizeMsg_partition (l : List (List Char)) :
    (l.filter fun m => categorizeMsg m = MsgCat.guidance).length +
    (l.filter fun m => categorizeMsg m = MsgCat.approval).length +
    (l.filter fun m => categorizeMsg m = MsgCat.corrections).length +
    (l.filter fun m => categorizeMsg m = MsgCat.questions).length +
    (l.filter fun m => categorizeMsg m = MsgCat.other).length = l.length := by
  induction l with
  | nil => rfl
  | cons m ms ih =>
    simp only [List.filter_cons]
    cases h : categorizeMsg m <;> simp [h] <;> omega

/-- C5: the message category histogram carries all five categories and its
values sum exactly to `real_user_msgs`: every retained message falls in
exactly one category (first matching rule). -/
theorem c5_histogram_sums (content : List Char) :
    msgCategories content .guidance + msgCategories content .approval +
    msgCategories content .corrections + msgCategories content .questions +
    msgCategories content .other = realUserMsgs content := by
  unfold msgCategories realUserMsgs
  exact categorizeMsg_partition (realUserMsgsList content)

theorem c6_counterexample :
    (turnsOf c6Cex).length = 1 ∧
    containsSubL ideMarker ((turnsOf c6Cex).getD 0 []) = true ∧
    realUserMsgsList c6Cex = ["hello".toList] := by decide

/-- C6 (amended): the IDE filter tests the captured quoted text, not the
whole turn body — every retained message's text is marker-free, while a
marker elsewhere in the body does not exclude the message. -/
theorem c6_marker_filter (content : List Char) (m : List Char)
    (hm : m ∈ realUserMsgsList content) : containsSubL ideMarker m = false := by
  unfold realUserMsgsList at hm
  have := List.of_mem_filter hm
  simpa using this

theorem c6_witness :
    ("hi".toList ∈ realUserMsgsList c6Wit) ∧ containsSubL ideMarker "hi".toList = false :=
  ⟨by decide, c6_marker_filter c6Wit "hi".toList (by decide)⟩

/-! ## Claims C2, C7, C10 -/

lemma toolErrGo_filter_lt (ts : List (List Char)) :
    ∀ n i : ℕ, i < n → (toolErrGo n ts).filter (fun r => r.1 = i) = [] := by
  induction ts with
  | nil => intro n i _; rfl
  | cons t ts ih =>
    intro n i hi
    rw [toolErrGo]
    cases hc : (classifyTurn t).toolError with
    | none => exact ih (n + 1) i (by omega)
    | some s =>
      simp only [List.filter_cons]
      rw [if_neg (by simp; omega)]
      exact ih (n + 1) i (by omega)

lemma toolErrGo_filter_eq (ts : List (List Char)) :
    ∀ n k : ℕ, ∀ h : k < ts.length,
      ((toolErrGo n ts).filter fun r => r.1 = n + k) =
        ((classifyTurn (ts.get ⟨k, h⟩)).toolError.map fun s => (n + k, s)).toList := by
  induction ts with
  | nil => intro n k h; exact absurd h (by simp)
  | cons t ts ih =>
    intro n k h
    cases k with
    | zero =>
      rw [toolErrGo]
      cases hc : (classifyTurn t).toolError with
      | none =>
        show _ = ((classifyTurn t).toolError.map _).toList
        rw [hc]
        exact toolErrGo_filter_lt ts (n + 1) (n + 0) (by omega)
      | some s =>
        show _ = ((classifyTurn t).toolError.map _).toList
        rw [hc]
        simp only [List.filter_cons]
        rw [if_pos (by simp)]
        rw [toolErrGo_filter_lt ts (n + 1) (n + 0) (by omega)]
        simp
    | succ k' =>
      have he : n + (k' + 1) = (n + 1) + k' := by omega
      have h' : k' < ts.length := by simpa using h
      have htail := ih (n + 1) k' h'
      have hgoal : ((toolErrGo n (t :: ts)).filter fun r => r.1 = n + (k' + 1)) =
          ((toolErrGo (n + 1) ts).filter fun r => r.1 = n + (k' + 1)) := by
        rw [toolErrGo]
        cases hc : (classifyTurn t).toolError with
        | none => rfl
        | some s =>
          simp only [List.filter_cons]
          rw [if_neg (by simp)]
      rw [hgoal, he]
      exact htail

lemma corrGo_mem_elim (i : ℕ) (s : List Char) :
    ∀ n : ℕ, ∀ ts : List (List Char), (i, s) ∈ corrGo n ts →
      ∃ k : ℕ, ∃ hk : k < ts.length, i = n + k ∧
        (classifyTurn (ts.get ⟨k, hk⟩)).correction = true ∧
        s = (userTextOf (ts.get ⟨k, hk⟩)).take 150 := by
  intro n ts
  induction ts generalizing n with
  | nil => intro h; simp [corrGo] at h
  | cons t ts ih =>
    intro h
    rw [corrGo] at h
    split_ifs at h with hc
    · rcases List.mem_cons.mp h with h0 | h0
      · rw [Prod.mk.injEq] at h0
        exact ⟨0, by simp, by omega, by simpa using hc, by simpa using h0.2⟩
      · obtain ⟨k, hk, h1, h2, h3⟩ := ih (n + 1) h0
        exact ⟨k + 1, by simpa using hk, by omega, by simpa using h2, by simpa using h3⟩
    · obtain ⟨k, hk, h1, h2, h3⟩ := ih (n + 1) h
      exact ⟨k + 1, by simpa using hk, by omega, by simpa using h2, by simpa using h3⟩

lemma clarGo_mem_elim (i : ℕ) (s : List Char) :
    ∀ n : ℕ, ∀ ts : List (List Char), (i, s) ∈ clarGo n ts →
      ∃ k : ℕ, ∃ hk : k < ts.length, i = n + k ∧
        (classifyTurn (ts.get ⟨k, hk⟩)).clarification = true ∧
        s = (userTextOf (ts.get ⟨k, hk⟩)).take 150 := by
  intro n ts
  induction ts generalizing n with
  | nil => intro h; simp [clarGo] at h
  | cons t ts ih =>
    intro h
    rw [clarGo] at h
    split_ifs at h with hc
    · rcases List.mem_cons.mp h with h0 | h0
      · rw [Prod.mk.injEq] at h0
        exact ⟨0, by simp, by omega, by simpa using hc, by simpa using h0.2⟩
      · obtain ⟨k, hk, h1, h2, h3⟩ := ih (n + 1) h0
        exact ⟨k + 1, by simpa using hk, by omega, by simpa using h2, by simpa using h3⟩
    · obtain ⟨k, hk, h1, h2, h3⟩ := ih (n + 1) h
      exact ⟨k + 1, by simpa using hk, by omega, by simpa using h2, by simpa using h3⟩

lemma corrGo_mem_intro :
    ∀ n : ℕ, ∀ ts : List (List Char), ∀ k : ℕ, ∀ hk : k < ts.length,
      (classifyTurn (ts.get ⟨k, hk⟩)).correction = true →
      (n + k, (userTextOf (ts.get ⟨k, hk⟩)).take 150) ∈ corrGo n ts := by
  intro n ts
  induction ts generalizing n with
  | nil => intro k hk; exact absurd hk (by simp)
  | cons t ts ih =>
    intro k hk hc
    cases k with
    | zero =>
      rw [corrGo, if_pos (by simpa using hc)]
      simp
    | succ k' =>
      have h' : k' < ts.length := by simpa using hk
      have hmem := ih (n + 1) k' h' (by simpa using hc)
      have he : n + (k' + 1) = (n + 1) + k' := by omega
      rw [corrGo]
      split_ifs with h0
      · exact List.mem_cons_of_mem _ (by rw [he]; simpa using hmem)
      · rw [he]; simpa using hmem

lemma clarGo_mem_intro :
    ∀ n : ℕ, ∀ ts : List (List Char), ∀ k : ℕ, ∀ hk : k < ts.length,
      (classifyTurn (ts.get ⟨k, hk⟩)).clarification = true →
      (n + k, (userTextOf (ts.get ⟨k, hk⟩)).take 150) ∈ clarGo n ts := by
  intro n ts
  induction ts generalizing n with
  | nil => intro k hk; exact absurd hk (by simp)
  | cons t ts ih =>
    intro k hk hc
    cases k with
    | zero =>
      rw [clarGo, if_pos (by simpa using hc)]
      simp
    | succ k' =>
      have h' : k' < ts.length := by simpa using hk
      have hmem := ih (n + 1) k' h' (by simpa using hc)
      have he : n + (k' + 1) = (n + 1) + k' := by omega
      rw [clarGo]
      split_ifs with h0
      · exact List.mem_cons_of_mem _ (by rw [he]; simpa using hmem)
      · rw [he]; simpa using hmem

lemma corr_absent (content : List Char) (k : ℕ) (hk : k < (turnsOf content).length)
    (hc : (classifyTurn ((turnsOf content).get ⟨k, hk⟩)).correction = false) :
    ∀ s, (k + 1, s) ∉ correctionDetails content := by
  intro s hmem
  obtain ⟨k', hk', h1, h2, _⟩ := corrGo_mem_elim (k + 1) s 1 (turnsOf content) hmem
  have hkk : k' = k := by omega
  subst hkk
  have hgt : (turnsOf content).get ⟨k', hk'⟩ = (turnsOf content).get ⟨k', hk⟩ := rfl
  rw [hgt, hc] at h2
  exact Bool.false_ne_true h2

lemma clar_absent (content : List Char) (k : ℕ) (hk : k < (turnsOf content).length)
    (hc : (classifyTurn ((turnsOf content).get ⟨k, hk⟩)).clarification = false) :
    ∀ s, (k + 1, s) ∉ clarificationDetails content := by
  intro s hmem
  obtain ⟨k', hk', h1, h2, _⟩ := clarGo_mem_elim (k + 1) s 1 (turnsOf content) hmem
  have hkk : k' = k := by omega
  subst hkk
  have hgt : (turnsOf content).get ⟨k', hk'⟩ = (turnsOf content).get ⟨k', hk⟩ := rfl
  rw [hgt, hc] at h2
  exact Bool.false_ne_true h2

/-- C2: a turn classified as a tool error (flag fragment present or a
failure signature matched) never yields a correction or a clarification
record, while a non-tool-error turn whose extracted quoted text matches
both pattern families is recorded as both a correction and a
clarification. -/
theorem c2_mutual_exclusion (content : List Char) (k : ℕ)
    (hk : k < (turnsOf content).length) (t : List Char)
    (ht : (turnsOf content).get ⟨k, hk⟩ = t) :
    ((hasToolErrorFlag t || toolErrorMatch t) = true →
      (∀ s, (k + 1, s) ∉ correctionDetails content) ∧
      (∀ s, (k + 1, s) ∉ clarificationDetails content)) ∧
    ((hasToolErrorFlag t || toolErrorMatch t) = false →
      matchCorrection (userTextOf t) = true →
      matchClarification (userTextOf t) = true →
      (k + 1, (userTextOf t).take 150) ∈ correctionDetails content ∧
      (k + 1, (userTextOf t).take 150) ∈ clarificationDetails content) := by
  constructor
  · intro htool
    have hc1 : (classifyTurn t).correction = false := by
      unfold classifyTurn
      rw [if_pos htool]
    have hc2 : (classifyTurn t).clarification = false := by
      unfold classifyTurn
      rw [if_pos htool]
    exact ⟨corr_absent content k hk (by rw [ht]; exact hc1),
           clar_absent content k hk (by rw [ht]; exact hc2)⟩
  · intro htool hcorr hclar
    have hc1 : (classifyTurn t).correction = true := by
      unfold classifyTurn
      rw [if_neg (by simp [htool])]
      exact hcorr
    have hc2 : (classifyTurn t).clarification = true := by
      unfold classifyTurn
      rw [if_neg (by simp [htool])]
      exact hclar
    have h1 := corrGo_mem_intro 1 (turnsOf content) k hk (by rw [ht]; exact hc1)
    have h2 := clarGo_mem_intro 1 (turnsOf content) k hk (by rw [ht]; exact hc2)
    rw [ht] at h1 h2
    rw [Nat.add_comm 1 k] at h1 h2
    exact ⟨h1, h2⟩

theorem c2_witness :
    (1, (userTextOf c2WitTurn).take 150) ∈ correctionDetails c2Wit ∧
    (1, (userTextOf c2WitTurn).take 150) ∈ clarificationDetails c2Wit := by
  have h := (c2_mutual_exclusion c2Wit 0 (by decide) c2WitTurn (by decide)).2
    (by decide) (by decide) (by decide)
  simpa using h

theorem c7_counterexample :
    containsSubL isErrorFlag ((turnsOf c7Cex).getD 0 []) = true ∧
    containsSubL psqlPat ((turnsOf c7Cex).getD 0 []) = true ∧
    toolErrorsCount c7Cex = 1 ∧
    errorCategories c7Cex ErrCat.dbConnection = 0 ∧
    errorCategories c7Cex ErrCat.otherTechnical = 1 := by decide

/-- C7 (amended): a turn containing both the error flag and the text
`psql: error:` is counted as exactly one tool error — its snippet being
the flagged content field after the flag, empty when that field is absent
— and yields no correction or clarification records; its sub-category is
Database Connection exactly when that snippet contains `psql` or
`connection` case-insensitively (so in particular when the psql text lies
in the flagged content field, but not when it sits elsewhere in the body). -/
theorem c7_flagged_psql_turn (content : List Char) (k : ℕ)
    (hk : k < (turnsOf content).length) (t : List Char)
    (ht : (turnsOf content).get ⟨k, hk⟩ = t)
    (hflag : containsSubL isErrorFlag t = true)
    (_hpsql : containsSubL psqlPat t = true) :
    ((toolErrorDetails content).filter fun r => r.1 = k + 1) = [(k + 1, flagSnippet t)] ∧
    (∀ s, (k + 1, s) ∉ correctionDetails content) ∧
    (∀ s, (k + 1, s) ∉ clarificationDetails content) ∧
    ((containsSubL "psql".toList ((flagSnippet t).map Char.toLower) ||
      containsSubL "connection".toList ((flagSnippet t).map Char.toLower)) = true →
      categorizeError (flagSnippet t) = ErrCat.dbConnection) := by
  have hflag' : hasToolErrorFlag t = true := hflag
  have htool : (hasToolErrorFlag t || toolErrorMatch t) = true := by
    rw [hflag']
    rfl
  have hte : (classifyTurn t).toolError = some (flagSnippet t) := by
    unfold classifyTurn
    rw [if_pos htool]
    rw [if_pos hflag']
  refine ⟨?_, ?_, ?_, ?_⟩
  · have hfe := toolErrGo_filter_eq (turnsOf content) 1 k hk
    rw [ht, hte] at hfe
    rw [Nat.add_comm 1 k] at hfe
    exact hfe
  · refine corr_absent content k hk ?_
    rw [ht]
    unfold classifyTurn
    rw [if_pos htool]
  · refine clar_absent content k hk ?_
    rw [ht]
    unfold classifyTurn
    rw [if_pos htool]
  · intro h
    unfold categorizeError
    rw [if_pos h]

theorem c7_witness :
    ((toolErrorDetails c7Wit).filter fun r => r.1 = 1) = [(1, flagSnippet c7WitTurn)] ∧
    categorizeError (flagSnippet c7WitTurn) = ErrCat.dbConnection := by
  have h := c7_flagged_psql_turn c7Wit 0 (by decide) c7WitTurn (by decide)
    (by decide) (by decide)
  exact ⟨by simpa using h.1, h.2.2.2 (by decide)⟩

lemma categorizeError_partition (l : List (ℕ × List Char)) :
    (l.filter fun r => categorizeError r.2 = ErrCat.dbConnection).length +
    (l.filter fun r => categorizeError r.2 = ErrCat.sqlMigration).length +
    (l.filter fun r => categorizeError r.2 = ErrCat.fileNotFound).length +
    (l.filter fun r => categorizeError r.2 = ErrCat.permission).length +
    (l.filter fun r => categorizeError r.2 = ErrCat.otherTechnical).length = l.length := by
  induction l with
  | nil => rfl
  | cons r rs ih =>
    simp only [List.filter_cons]
    cases h : categorizeError r.2 <;> simp [h] <;> omega

/-- C10: the sub-category histogram partitions the tool errors: every
recorded detail gets exactly one of the five sub-categories, so the
histogram values sum to the tool-error count. -/
theorem c10_error_histogram_partitions (content : List Char) :
    errorCategories content .dbConnection + errorCategories content .sqlMigration +
    errorCategories content .fileNotFound + errorCategories content .permission +
    errorCategories content .otherTechnical = toolErrorsCount content := by
  unfold errorCategories toolErrorsCount
  exact categorizeError_partition (toolErrorDetails content)
